import Mathlib

/-!
# Verification of the API-Server CRUD core

A shallow embedding of the request-handling core of the API-Server
repository: the two resource controllers (`userController.js`,
`productController.js`) and the boundary error handler, together with
the fragment of JavaScript runtime semantics they rely on (strict
equality, truthiness, `parseInt`/`parseFloat` prefix parsing, object
spread).

Records are open key/value mappings (JavaScript objects produced by
`JSON.parse`), modelled as association lists of field name and value.
`saveJsonData` is modelled by returning the sequence that would be
persisted; an operation that fails before reaching `saveJsonData`
returns an error and no sequence, so "no save happened" is visible in
the result type.
-/

set_option autoImplicit false

namespace ApiServer

/-- `10 ^ e` as an integer, by structural recursion so that the kernel
can evaluate it. -/
def pow10 : Nat → Int
  | 0 => 1
  | n + 1 => 10 * pow10 n

/-- A finite JavaScript number of this service, written `mant / 10 ^ exp`.
The JSON payloads and query strings of this service only carry decimal
literals, which this type represents exactly; equality and order are
value equality and order (by cross multiplication), not representation
equality. -/
structure DecNum where
  mant : Int
  exp : Nat
deriving Repr, DecidableEq

namespace DecNum

/-- Value equality of two decimal numbers. -/
def numEq (a b : DecNum) : Bool :=
  a.mant * pow10 b.exp = b.mant * pow10 a.exp

/-- Value order of two decimal numbers. -/
def numLe (a b : DecNum) : Bool :=
  a.mant * pow10 b.exp ≤ b.mant * pow10 a.exp

/-- `a + 1`. -/
def addOne (a : DecNum) : DecNum :=
  ⟨a.mant + pow10 a.exp, a.exp⟩

/-- The larger of two decimal numbers (`Math.max` on two non-`NaN`
arguments). -/
def numMax (a b : DecNum) : DecNum :=
  if numLe a b then b else a

instance (n : Nat) : OfNat DecNum n := ⟨⟨n, 0⟩⟩

instance : OfScientific DecNum :=
  ⟨fun m b e => if b then ⟨m, e⟩ else ⟨(m : Int) * pow10 e, 0⟩⟩

end DecNum

/-- A JavaScript value as it can appear in a record field or request
payload of this service: strings, finite numbers, `NaN`, booleans,
`null` and `undefined`.  `NaN` is a separate constructor because
strict equality and comparisons treat it specially. -/
inductive Value where
  | vstr : String → Value
  | vnum : DecNum → Value
  | vnan : Value
  | vbool : Bool → Value
  | vnull : Value
  | vundef : Value
deriving Repr, DecidableEq

open Value

/-- JavaScript strict equality `===` restricted to the values above:
equal only within the same type, and `NaN === x` is always `false`
(including `NaN === NaN`). -/
def jsStrictEq : Value → Value → Bool
  | vstr a, vstr b => a = b
  | vnum a, vnum b => DecNum.numEq a b
  | vbool a, vbool b => a = b
  | vnull, vnull => true
  | vundef, vundef => true
  | _, _ => false

/-- JavaScript truthiness of a value: `""`, `0`, `NaN`, `false`,
`null` and `undefined` are falsy, everything else is truthy. -/
def truthy : Value → Bool
  | vstr s => s ≠ ""
  | vnum q => q.mant ≠ 0
  | vnan => false
  | vbool b => b
  | vnull => false
  | vundef => false

/-- A record (JavaScript object) is an association list of field names
and values.  Objects produced by `JSON.parse` have pairwise-distinct
keys; theorems that need this carry it as a hypothesis. -/
abbrev Record := List (String × Value)

/-- Property access `r.k`: the value of the first entry named `k`,
or `none` when the field is absent (JavaScript `undefined`). -/
def getField (r : Record) (k : String) : Option Value :=
  (List.find? (fun p => p.1 = k) r).map (·.2)

/-- Property access returning `undefined` as a value, as JavaScript
expressions such as `p.id` do. -/
def fieldValue (r : Record) (k : String) : Value :=
  (getField r k).getD vundef

/-- Property write `r[k] = v` on an object: overwrite the entry in
place when the key exists, append it otherwise (JavaScript objects
keep insertion order of keys). -/
def setField (r : Record) (k : String) (v : Value) : Record :=
  if List.any r (fun p => p.1 = k) then
    List.map (fun p => if p.1 = k then (k, v) else p) r
  else
    r ++ [(k, v)]

/-- Object spread `{...a, ...b}`: every entry of `b` is written into
`a` in order, so for a shared key the entry of `b` wins. -/
def spread (a b : Record) : Record :=
  List.foldl (fun acc p => setField acc p.1 p.2) a b

/-- The keys of a record, in order. -/
def keys (r : Record) : List String :=
  List.map Prod.fst r

/-! ## Numeric parsing (JavaScript runtime fragment)

`parseInt`, `parseFloat` and the `Number()` string coercion as
specified by ECMAScript, restricted to the finite values the `DecNum`
model can carry: the non-finite `Infinity` literal accepted by
`parseFloat`/`Number()` is outside the model and coerces to `none`
(the encoding of `NaN`); every finite result agrees with JavaScript. -/

/-- The ECMAScript `StrWhiteSpaceChar` set skipped/trimmed by the
numeric string conversions: WhiteSpace (TAB, VT, FF, SP, NBSP,
ZWNBSP and the Unicode space separators) together with the line
terminators (LF, CR, LS, PS). -/
def isJsSpace (c : Char) : Bool :=
  let n := c.toNat
  n = 0x09 ∨ n = 0x0A ∨ n = 0x0B ∨ n = 0x0C ∨ n = 0x0D ∨ n = 0x20 ∨
  n = 0xA0 ∨ n = 0x1680 ∨ (0x2000 ≤ n ∧ n ≤ 0x200A) ∨
  n = 0x2028 ∨ n = 0x2029 ∨ n = 0x202F ∨ n = 0x205F ∨ n = 0x3000 ∨
  n = 0xFEFF

/-- Numeric value of a list of decimal digit characters. -/
def digitsVal (ds : List Char) : Nat :=
  List.foldl (fun acc c => 10 * acc + (c.toNat - '0'.toNat)) 0 ds

/-- A hexadecimal digit (`0-9`, `a-f`, `A-F`). -/
def isHexDigitChar (c : Char) : Bool :=
  c.isDigit ∨ ('a' ≤ c ∧ c ≤ 'f') ∨ ('A' ≤ c ∧ c ≤ 'F')

/-- Numeric value of one hexadecimal digit character. -/
def hexVal (c : Char) : Nat :=
  if c.isDigit then c.toNat - '0'.toNat
  else if 'a' ≤ c ∧ c ≤ 'f' then c.toNat - 'a'.toNat + 10
  else c.toNat - 'A'.toNat + 10

/-- Numeric value of a list of hexadecimal digit characters. -/
def hexDigitsVal (ds : List Char) : Nat :=
  List.foldl (fun acc c => 16 * acc + hexVal c) 0 ds

/-- An octal digit (`0-7`). -/
def isOctalDigitChar (c : Char) : Bool :=
  '0' ≤ c ∧ c ≤ '7'

/-- Numeric value of a list of octal digit characters. -/
def octalDigitsVal (ds : List Char) : Nat :=
  List.foldl (fun acc c => 8 * acc + (c.toNat - '0'.toNat)) 0 ds

/-- A binary digit (`0` or `1`). -/
def isBinaryDigitChar (c : Char) : Bool :=
  c = '0' ∨ c = '1'

/-- Numeric value of a list of binary digit characters. -/
def binaryDigitsVal (ds : List Char) : Nat :=
  List.foldl (fun acc c => 2 * acc + (c.toNat - '0'.toNat)) 0 ds

/-- Split an optional leading sign, returning `-1` or `1` and the rest. -/
def splitSign : List Char → Int × List Char
  | '-' :: cs => (-1, cs)
  | '+' :: cs => (1, cs)
  | cs => (1, cs)

/-- JavaScript `parseInt(s)` with no radix argument: skip
`StrWhiteSpace`, optional sign, then either a `0x`/`0X` prefix
followed by the longest hexadecimal digit prefix (radix 16) or the
longest decimal digit prefix (radix 10); `none` models `NaN` when no
digit is read. -/
def jsParseInt (s : String) : Option Int :=
  let cs := List.dropWhile isJsSpace s.toList
  let (sign, cs) := splitSign cs
  let isHex : Bool := match cs with
    | '0' :: x :: _ => x = 'x' ∨ x = 'X'
    | _ => false
  if isHex then
    let ds := List.takeWhile isHexDigitChar (List.drop 2 cs)
    if ds.isEmpty then none else some (sign * (hexDigitsVal ds : Int))
  else
    let ds := List.takeWhile Char.isDigit cs
    if ds.isEmpty then none else some (sign * (digitsVal ds : Int))

/-- The decimal number `sign * digits.fracDigits`. -/
def mkDec (sign : Int) (ds fs : List Char) : DecNum :=
  ⟨sign * ((digitsVal ds : Int) * pow10 fs.length + (digitsVal fs : Int)), fs.length⟩

/-- Scale a decimal number by `10 ^ k`. -/
def applyExp (d : DecNum) (k : Int) : DecNum :=
  if 0 ≤ k then ⟨d.mant * pow10 k.toNat, d.exp⟩ else ⟨d.mant, d.exp + (-k).toNat⟩

/-- Negate a decimal number when `sign` is `-1`. -/
def negDec (sign : Int) (d : DecNum) : DecNum :=
  ⟨sign * d.mant, d.exp⟩

/-- The longest unsigned `StrUnsignedDecimalLiteral` prefix of a
character list — `digits [. digits]`, `. digits`, optionally followed
by an `(e|E)[+-]digits` exponent — together with the unconsumed
remainder; `none` when no digit is read (the `Infinity` form is
outside the finite model). -/
def parseDecLit (cs : List Char) : Option (DecNum × List Char) :=
  let ds := List.takeWhile Char.isDigit cs
  let r1 := List.drop ds.length cs
  let fs := match r1 with
    | '.' :: rs => List.takeWhile Char.isDigit rs
    | _ => []
  let r2 := match r1 with
    | '.' :: rs => List.drop fs.length rs
    | _ => r1
  if ds.isEmpty ∧ fs.isEmpty then none
  else
    let base := mkDec 1 ds fs
    match r2 with
    | e :: rs =>
        if e = 'e' ∨ e = 'E' then
          let (es, rs') := splitSign rs
          let eds := List.takeWhile Char.isDigit rs'
          if eds.isEmpty then some (base, r2)
          else some (applyExp base (es * (digitsVal eds : Int)),
            List.drop eds.length rs')
        else some (base, r2)
    | [] => some (base, [])

/-- JavaScript `parseFloat(s)`: skip `StrWhiteSpace`, optional sign,
longest decimal literal prefix (with optional fraction and exponent);
`none` models `NaN` when no digit is read. -/
def jsParseFloat (s : String) : Option DecNum :=
  let cs := List.dropWhile isJsSpace s.toList
  let (sign, cs) := splitSign cs
  match parseDecLit cs with
  | some (d, _) => some (negDec sign d)
  | none => none

/-- JavaScript `Number(s)` on a string: a whitespace-only string is
`0`; a `0x`/`0o`/`0b` integer literal (no sign) is read in its radix;
otherwise the whole trimmed string must be a signed decimal literal
(optional fraction and exponent).  `none` models `NaN`. -/
def jsStrToNumber (s : String) : Option DecNum :=
  let cs := List.dropWhile isJsSpace s.toList
  let cs := List.reverse (List.dropWhile isJsSpace (List.reverse cs))
  if cs.isEmpty then some 0
  else
    let nonDec : Option DecNum :=
      match cs with
      | '0' :: x :: rest =>
          if (x = 'x' ∨ x = 'X') ∧ ¬rest.isEmpty ∧ List.all rest isHexDigitChar then
            some ⟨(hexDigitsVal rest : Int), 0⟩
          else if (x = 'o' ∨ x = 'O') ∧ ¬rest.isEmpty ∧ List.all rest isOctalDigitChar then
            some ⟨(octalDigitsVal rest : Int), 0⟩
          else if (x = 'b' ∨ x = 'B') ∧ ¬rest.isEmpty ∧ List.all rest isBinaryDigitChar then
            some ⟨(binaryDigitsVal rest : Int), 0⟩
          else none
      | _ => none
    match nonDec with
    | some d => some d
    | none =>
        let (sign, cs') := splitSign cs
        match parseDecLit cs' with
        | some (d, rest) => if rest.isEmpty then some (negDec sign d) else none
        | none => none

/-- JavaScript `ToNumber` coercion of a value; `none` models `NaN`. -/
def jsToNumber : Value → Option DecNum
  | vnum q => some q
  | vnan => none
  | vbool b => some (if b then 1 else 0)
  | vnull => some 0
  | vundef => none
  | vstr s => jsStrToNumber s

/-- JavaScript `a >= b` where `b` is already a number (`none` = `NaN`):
coerce `a` to a number; any `NaN` makes the comparison `false`. -/
def jsGeNum (a : Value) (b : Option DecNum) : Bool :=
  match jsToNumber a, b with
  | some x, some y => DecNum.numLe y x
  | _, _ => false

/-- JavaScript `a <= b` where `b` is already a number (`none` = `NaN`). -/
def jsLeNum (a : Value) (b : Option DecNum) : Bool :=
  match jsToNumber a, b with
  | some x, some y => DecNum.numLe x y
  | _, _ => false

/-! ## Failures

A controller failure is an `Error` with a `message` and an optional
`statusCode` property, handed to `next(error)`.  On an error path the
controller returns before `saveJsonData` is reached, so a mutating
operation below returns `Except Failure (Record × List Record)`:
`.ok (r, ps)` means the response record is `r` and `saveJsonData` was
called exactly once with `ps`; `.error e` means no save happened. -/

structure Failure where
  message : String
  statusCode : Option Nat
deriving Repr, DecidableEq

instance {ε α : Type} [DecidableEq ε] [DecidableEq α] : DecidableEq (Except ε α) :=
  fun a b =>
    match a, b with
    | .ok x, .ok y => decidable_of_iff (x = y) (by simp)
    | .error x, .error y => decidable_of_iff (x = y) (by simp)
    | .ok _, .error _ => isFalse (by simp)
    | .error _, .ok _ => isFalse (by simp)

/-- The failure raised by user operations on an absent id
(`userController.js`). -/
def notFoundUser : Failure := ⟨"User not found", some 404⟩

/-- The failure raised by product operations on an absent id
(`productController.js`). -/
def notFoundProduct : Failure := ⟨"Product not found", some 404⟩

/-! ## User controller (`src/controllers/userController.js`) -/

/-- The predicate `u => u.id === req.params.id` used by the user
controller to locate a record; the path parameter is a string. -/
def userMatches (pid : String) (u : Record) : Bool :=
  jsStrictEq (fieldValue u "id") (vstr pid)

/-- `getUserById`: find the first user with `u.id === req.params.id`,
404 otherwise. -/
def getUserById (users : List Record) (pid : String) : Except Failure Record :=
  match List.find? (userMatches pid) users with
  | some u => .ok u
  | none => .error notFoundUser

/-- `createUser`: build `{id: req.body.id || generateRandomId(), ...req.body}`,
append it and save.  `generateRandomId()` is nondeterministic
(`Math.random`/`Date.now`), so its output is the parameter `genId`. -/
def createUser (users : List Record) (body : Record) (genId : String) :
    Record × List Record :=
  let newUser :=
    spread [("id", if truthy (fieldValue body "id") then fieldValue body "id"
                   else vstr genId)] body
  (newUser, users ++ [newUser])

/-- `updateUser`: locate the first index with `u.id === req.params.id`
(404 when none), replace that record by
`{...users[userIndex], ...req.body, id: users[userIndex].id}` and save. -/
def updateUser (users : List Record) (pid : String) (body : Record) :
    Except Failure (Record × List Record) :=
  match List.findIdx? (userMatches pid) users with
  | none => .error notFoundUser
  | some i =>
      let old := users.getD i []
      let updated := setField (spread old body) "id" (fieldValue old "id")
      .ok (updated, users.set i updated)

/-- `deleteUser`: locate the first index with `u.id === req.params.id`
(404 when none), `splice` that record out, save, and return the removed
record. -/
def deleteUser (users : List Record) (pid : String) :
    Except Failure (Record × List Record) :=
  match List.findIdx? (userMatches pid) users with
  | none => .error notFoundUser
  | some i => .ok (users.getD i [], users.eraseIdx i)

/-! ## Product controller (`src/controllers/productController.js`) -/

/-- `parseInt(req.params.id)` as a JavaScript value: a number, or
`NaN` when the string has no digit prefix. -/
def parseIntValue (s : String) : Value :=
  match jsParseInt s with
  | some n => vnum ⟨n, 0⟩
  | none => vnan

/-- The predicate `p => p.id === id` with `id = parseInt(req.params.id)`
used by the product controller to locate a record. -/
def productMatches (idv : Value) (p : Record) : Bool :=
  jsStrictEq (fieldValue p "id") idv

/-- `getProductById`. -/
def getProductById (products : List Record) (pid : String) :
    Except Failure Record :=
  match List.find? (productMatches (parseIntValue pid)) products with
  | some p => .ok p
  | none => .error notFoundProduct

/-- `Math.max(...products.map(p => p.id))`: each id is coerced to a
number, any `NaN` poisons the maximum; only evaluated on a non-empty
collection. -/
def mathMaxIds (products : List Record) : Option DecNum :=
  match List.map (fun p => jsToNumber (fieldValue p "id")) products with
  | [] => none
  | x :: xs =>
      List.foldl (fun acc y =>
        match acc, y with
        | some a, some b => some (DecNum.numMax a b)
        | _, _ => none) x xs

/-- `createProduct`: build
`{id: products.length > 0 ? Math.max(...products.map(p => p.id)) + 1 : 1, ...req.body}`,
append it and save. -/
def createProduct (products : List Record) (body : Record) :
    Record × List Record :=
  let newId : Value :=
    if 0 < products.length then
      match mathMaxIds products with
      | some m => vnum m.addOne
      | none => vnan
    else vnum 1
  let newProduct := spread [("id", newId)] body
  (newProduct, products ++ [newProduct])

/-- `updateProduct`: locate the first index with
`p.id === parseInt(req.params.id)` (404 when none), replace that record
by `{...products[productIndex], ...req.body, id: products[productIndex].id}`
and save. -/
def updateProduct (products : List Record) (pid : String) (body : Record) :
    Except Failure (Record × List Record) :=
  match List.findIdx? (productMatches (parseIntValue pid)) products with
  | none => .error notFoundProduct
  | some i =>
      let old := products.getD i []
      let updated := setField (spread old body) "id" (fieldValue old "id")
      .ok (updated, products.set i updated)

/-- `deleteProduct`. -/
def deleteProduct (products : List Record) (pid : String) :
    Except Failure (Record × List Record) :=
  match List.findIdx? (productMatches (parseIntValue pid)) products with
  | none => .error notFoundProduct
  | some i => .ok (products.getD i [], products.eraseIdx i)

/-- The query parameters consulted by `getAllProducts`; `none` models
an absent parameter, `some s` a parameter bound to string `s`. -/
structure ProductQuery where
  category : Option String
  minPrice : Option String
  maxPrice : Option String

/-- The guard `if (req.query.category)` and its filter
`p => p.category === req.query.category`: applied only when the
parameter is present and truthy (a non-empty string). -/
def applyCategoryFilter (c? : Option String) (ps : List Record) : List Record :=
  match c? with
  | some c =>
      if c = "" then ps
      else List.filter (fun p => jsStrictEq (fieldValue p "category") (vstr c)) ps
  | none => ps

/-- The guard `if (req.query.minPrice)` and its filter
`p => p.price >= parseFloat(req.query.minPrice)`. -/
def applyMinPriceFilter (m? : Option String) (ps : List Record) : List Record :=
  match m? with
  | some m =>
      if m = "" then ps
      else List.filter (fun p => jsGeNum (fieldValue p "price") (jsParseFloat m)) ps
  | none => ps

/-- The guard `if (req.query.maxPrice)` and its filter
`p => p.price <= parseFloat(req.query.maxPrice)`. -/
def applyMaxPriceFilter (m? : Option String) (ps : List Record) : List Record :=
  match m? with
  | some m =>
      if m = "" then ps
      else List.filter (fun p => jsLeNum (fieldValue p "price") (jsParseFloat m)) ps
  | none => ps

/-- `getAllProducts`: the three optional filters applied in source
order (category, then minPrice, then maxPrice). -/
def getAllProducts (products : List Record) (q : ProductQuery) : List Record :=
  applyMaxPriceFilter q.maxPrice
    (applyMinPriceFilter q.minPrice
      (applyCategoryFilter q.category products))

/-! ## Boundary error handler (`errorHandler` middleware) -/

/-- The error object reaching the boundary handler: a `message`, an
optional numeric `statusCode` property and a `stack` string. -/
structure ErrorInput where
  message : String
  statusCode : Option Nat
  stack : String
deriving Repr, DecidableEq

/-- The JSON envelope produced by the boundary handler; `stack = none`
means the field is absent from the response. -/
structure ErrorResponse where
  status : String
  statusCode : Nat
  message : String
  stack : Option String
deriving Repr, DecidableEq

/-- The boundary `errorHandler` middleware: responds with status
`err.statusCode || 500` and body
`{status:'error', statusCode, message: err.message || 'Internal server error',
...(development && {stack: err.stack})}`.  `isDevelopment` models
`process.env.NODE_ENV === 'development'`. -/
def errorHandler (err : ErrorInput) (isDevelopment : Bool) : ErrorResponse :=
  let statusCode : Nat :=
    match err.statusCode with
    | some n => if n = 0 then 500 else n
    | none => 500
  { status := "error"
    statusCode := statusCode
    message := if err.message = "" then "Internal server error" else err.message
    stack := if isDevelopment then some err.stack else none }

/-! ## Supporting lemmas -/

theorem getField_nil (k : String) : getField [] k = none := rfl

theorem getField_cons (a : String) (b : Value) (t : Record) (k : String) :
    getField ((a, b) :: t) k = if a = k then some b else getField t k := by
  simp only [getField, List.find?_cons]
  by_cases h : a = k <;> simp [h]

theorem getField_eq_none_of_not_mem_keys {t : Record} {k : String}
    (h : k ∉ keys t) : getField t k = none := by
  induction t with
  | nil => rfl
  | cons p t ih =>
      obtain ⟨a, b⟩ := p
      simp only [keys, List.map_cons, List.mem_cons, not_or] at h
      rw [getField_cons, if_neg (fun hh => h.1 hh.symm),
        ih (by simpa [keys] using h.2)]

theorem getField_mapSet_ne {t : Record} {k k' : String} {v : Value} (h : k' ≠ k) :
    getField (List.map (fun p => if p.1 = k then (k, v) else p) t) k' =
      getField t k' := by
  induction t with
  | nil => rfl
  | cons p t ih =>
      obtain ⟨a, b⟩ := p
      by_cases ha : a = k
      · subst ha
        simp only [List.map_cons, if_pos rfl]
        rw [getField_cons, getField_cons, if_neg (fun hh => h hh.symm),
          if_neg (fun hh => h hh.symm), ih]
      · simp only [List.map_cons, if_neg ha]
        rw [getField_cons, getField_cons]
        by_cases hak : a = k'
        · simp [hak]
        · simp [hak, ih]

theorem getField_mapSet_self {t : Record} {k : String} {v : Value} :
    getField (List.map (fun p => if p.1 = k then (k, v) else p) t) k =
      if List.any t (fun p => p.1 = k) then some v else none := by
  induction t with
  | nil => rfl
  | cons p t ih =>
      obtain ⟨a, b⟩ := p
      by_cases ha : a = k
      · subst ha
        simp [getField_cons, ih]
      · simp only [List.map_cons, if_neg ha, List.any_cons]
        rw [getField_cons, if_neg ha, ih]
        by_cases hb : (List.any t fun p => decide (p.1 = k)) = true
        · simp [hb, ha]
        · simp [hb, ha]

theorem find?_key_eq_none_of_not_any {t : Record} {k : String}
    (h : List.any t (fun p => p.1 = k) = false) :
    List.find? (fun p => p.1 = k) t = none := by
  rw [List.find?_eq_none]
  intro x hx
  simpa using (List.any_eq_false.mp h) x hx

theorem getField_setField (r : Record) (k : String) (v : Value) (k' : String) :
    getField (setField r k v) k' = if k' = k then some v else getField r k' := by
  unfold setField
  by_cases hany : List.any r (fun p => p.1 = k)
  · rw [if_pos hany]
    by_cases hk : k' = k
    · subst hk
      rw [getField_mapSet_self, if_pos hany, if_pos rfl]
    · rw [getField_mapSet_ne hk, if_neg hk]
  · rw [if_neg hany]
    by_cases hk : k' = k
    · subst hk
      simp only [getField, List.find?_append,
        find?_key_eq_none_of_not_any (Bool.eq_false_iff.mpr hany)]
      simp [if_pos rfl]
    · simp only [getField, List.find?_append]
      rw [List.find?_cons_of_neg _ (by simpa using fun hh => hk hh.symm),
        List.find?_nil]
      cases List.find? (fun p => p.1 = k') r <;> simp [hk]

theorem getField_spread (a : Record) {b : Record} (hb : (keys b).Nodup)
    (k : String) :
    getField (spread a b) k = (getField b k).or (getField a k) := by
  induction b generalizing a with
  | nil => simp [spread, getField_nil]
  | cons p t ih =>
      obtain ⟨k0, v0⟩ := p
      simp only [keys, List.map_cons, List.nodup_cons] at hb
      have step : spread a ((k0, v0) :: t) = spread (setField a k0 v0) t := rfl
      rw [step, ih (setField a k0 v0) hb.2, getField_cons]
      by_cases hk : k0 = k
      · subst hk
        rw [getField_eq_none_of_not_mem_keys hb.1, getField_setField,
          if_pos rfl]
        simp
      · rw [if_neg hk, getField_setField, if_neg (fun hh => hk hh.symm)]

/-- The facts carried by `List.findIdx? p l = some i`: `i` is in bounds,
the element there satisfies `p`, and no earlier element does. -/
theorem findIdx?_some_facts {α : Type} {p : α → Bool} {l : List α} {i : Nat}
    (h : List.findIdx? p l = some i) :
    ∃ hi : i < l.length, p (l.get ⟨i, hi⟩) = true ∧
      ∀ j, (hj : j < l.length) → j < i → p (l.get ⟨j, hj⟩) = false := by
  rw [List.findIdx?_eq_some_iff_findIdx_eq] at h
  obtain ⟨hi, hfi⟩ := h
  refine ⟨hi, ?_, ?_⟩
  · have := @List.findIdx_getElem _ p l (by rw [hfi]; exact hi)
    simpa [hfi] using this
  · intro j hj hji
    have := @List.not_of_lt_findIdx _ p l j (by rw [hfi]; exact hji)
    simpa using this

/-- If no index other than `i` satisfies `p`, nothing in
`l.eraseIdx i` does. -/
theorem find?_eraseIdx_eq_none {α : Type} {p : α → Bool} {l : List α} {i : Nat}
    (hi : i < l.length)
    (h : ∀ j, (hj : j < l.length) → j ≠ i → p (l.get ⟨j, hj⟩) = false) :
    List.find? p (l.eraseIdx i) = none := by
  rw [List.find?_eq_none]
  intro x hx
  rw [List.mem_iff_getElem] at hx
  obtain ⟨j, hj, hx⟩ := hx
  have hlen : (l.eraseIdx i).length = l.length - 1 := by
    rw [List.length_eraseIdx, if_pos hi]
  rw [List.getElem_eraseIdx] at hx
  by_cases hji : j < i
  · rw [dif_pos hji] at hx
    rw [← hx]
    exact Bool.eq_false_iff.mp (h j (by omega) (by omega)) ∘ id
  · rw [dif_neg hji] at hx
    rw [← hx]
    exact Bool.eq_false_iff.mp (h (j + 1) (by omega) (by omega)) ∘ id

/-- Strict equality against a string literal pins the value. -/
theorem jsStrictEq_vstr_iff (v : Value) (s : String) :
    jsStrictEq v (vstr s) = true ↔ v = vstr s := by
  cases v <;> simp [jsStrictEq]

/-- Spreading a record that does not mention `k` leaves field `k`
untouched. -/
theorem getField_spread_of_not_mem (a : Record) {b : Record} {k : String}
    (h : k ∉ keys b) : getField (spread a b) k = getField a k := by
  induction b generalizing a with
  | nil => rfl
  | cons p t ih =>
      obtain ⟨k0, v0⟩ := p
      simp only [keys, List.map_cons, List.mem_cons, not_or] at h
      have step : spread a ((k0, v0) :: t) = spread (setField a k0 v0) t := rfl
      rw [step, ih (setField a k0 v0) (by simpa [keys] using h.2),
        getField_setField, if_neg h.1]

theorem pow10_pos (n : Nat) : 0 < pow10 n := by
  induction n with
  | zero => decide
  | succ n ih => rw [pow10]; omega

theorem numLe_refl (a : DecNum) : DecNum.numLe a a = true := by
  simp [DecNum.numLe]

theorem numLe_total (a b : DecNum) :
    DecNum.numLe a b = true ∨ DecNum.numLe b a = true := by
  simp only [DecNum.numLe, decide_eq_true_eq]
  omega

theorem numLe_trans {a b c : DecNum} (h1 : DecNum.numLe a b = true)
    (h2 : DecNum.numLe b c = true) : DecNum.numLe a c = true := by
  simp only [DecNum.numLe, decide_eq_true_eq] at h1 h2 ⊢
  have h1' := mul_le_mul_of_nonneg_right h1 (le_of_lt (pow10_pos c.exp))
  have h2' := mul_le_mul_of_nonneg_right h2 (le_of_lt (pow10_pos a.exp))
  have h3 : a.mant * pow10 c.exp * pow10 b.exp ≤
      c.mant * pow10 a.exp * pow10 b.exp := by nlinarith
  exact le_of_mul_le_mul_right h3 (pow10_pos b.exp)

theorem numLe_numMax_left (a b : DecNum) :
    DecNum.numLe a (DecNum.numMax a b) = true := by
  unfold DecNum.numMax
  by_cases h : DecNum.numLe a b = true
  · simp [h]
  · simp [h, numLe_refl]

theorem numLe_numMax_right (a b : DecNum) :
    DecNum.numLe b (DecNum.numMax a b) = true := by
  unfold DecNum.numMax
  by_cases h : DecNum.numLe a b = true
  · simp [h, numLe_refl]
  · rcases numLe_total a b with h' | h'
    · exact absurd h' h
    · simp [h, h']

theorem numMax_cases (a b : DecNum) :
    DecNum.numMax a b = a ∨ DecNum.numMax a b = b := by
  unfold DecNum.numMax
  by_cases h : DecNum.numLe a b = true <;> simp [h]

/-- The accumulator function of `mathMaxIds`. -/
def maxStep (acc y : Option DecNum) : Option DecNum :=
  match acc, y with
  | some a, some b => some (DecNum.numMax a b)
  | _, _ => none

/-- Folding `maxStep` over defined values yields a defined value that
bounds every input and is one of them. -/
theorem foldl_maxStep_spec (x : DecNum) (xs : List (Option DecNum))
    (hxs : ∀ y ∈ xs, ∃ q, y = some q) :
    ∃ m, List.foldl maxStep (some x) xs = some m ∧
      (m = x ∨ some m ∈ xs) ∧ DecNum.numLe x m = true ∧
      ∀ q, some q ∈ xs → DecNum.numLe q m = true := by
  induction xs generalizing x with
  | nil => exact ⟨x, rfl, Or.inl rfl, numLe_refl x, by simp⟩
  | cons y ys ih =>
      obtain ⟨b, rfl⟩ := hxs y (List.mem_cons_self y ys)
      have hys : ∀ y ∈ ys, ∃ q, y = some q :=
        fun y hy => hxs y (List.mem_cons_of_mem _ hy)
      obtain ⟨m, hfold, hmem, hle, hall⟩ := ih (DecNum.numMax x b) hys
      refine ⟨m, ?_, ?_, ?_, ?_⟩
      · simpa [maxStep] using hfold
      · rcases hmem with hm | hm
        · rcases numMax_cases x b with hc | hc
          · exact Or.inl (hm.trans hc)
          · exact Or.inr (by simp [hm, hc])
        · exact Or.inr (List.mem_cons_of_mem _ hm)
      · exact numLe_trans (numLe_numMax_left x b) hle
      · intro q hq
        rcases List.mem_cons.mp hq with hq | hq
        · obtain rfl : q = b := by simpa using hq
          exact numLe_trans (numLe_numMax_right x q) hle
        · exact hall q hq

/-- `mathMaxIds` on a non-empty collection whose ids all coerce to
numbers: it is defined, bounds every id, and is one of the ids. -/
theorem mathMaxIds_spec (ps : List Record) (hne : ps ≠ [])
    (hids : ∀ p ∈ ps, ∃ q, jsToNumber (fieldValue p "id") = some q) :
    ∃ m, mathMaxIds ps = some m ∧
      (∃ p ∈ ps, jsToNumber (fieldValue p "id") = some m) ∧
      ∀ p ∈ ps, ∀ q, jsToNumber (fieldValue p "id") = some q →
        DecNum.numLe q m = true := by
  cases ps with
  | nil => exact absurd rfl hne
  | cons p rest =>
      obtain ⟨q0, hq0⟩ := hids p (List.mem_cons_self p rest)
      have hrest : ∀ y ∈ List.map (fun p => jsToNumber (fieldValue p "id")) rest,
          ∃ q, y = some q := by
        intro y hy
        obtain ⟨p', hp', rfl⟩ := List.mem_map.mp hy
        exact hids p' (List.mem_cons_of_mem _ hp')
      obtain ⟨m, hfold, hmem, hle, hall⟩ := foldl_maxStep_spec q0
        (List.map (fun p => jsToNumber (fieldValue p "id")) rest) hrest
      refine ⟨m, ?_, ?_, ?_⟩
      · unfold mathMaxIds
        simp only [List.map_cons, hq0]
        exact (by simpa [maxStep] using hfold)
      · rcases hmem with hm | hm
        · exact ⟨p, List.mem_cons_self p rest, by rw [hq0, hm]⟩
        · obtain ⟨p', hp', hp'eq⟩ := List.mem_map.mp hm
          exact ⟨p', List.mem_cons_of_mem _ hp', hp'eq⟩
      · intro p' hp' q hq
        rcases List.mem_cons.mp hp' with rfl | hp'
        · have : q0 = q := by rw [hq0] at hq; exact Option.some_injective _ hq
          exact this ▸ hle
        · exact hall q (by
            rw [← hq]
            exact List.mem_map.mpr ⟨p', hp', hq.symm ▸ rfl⟩)

/-! ## Sample data

The product records used by the spec's filter-conjunction property:
prices `[99.99, 199.99, 29.99]`, categories
`[electronics, electronics, accessories]`. -/

def sampleLaptop : Record :=
  [("id", vnum 1), ("name", vstr "Laptop"),
   ("price", vnum 99.99), ("category", vstr "electronics")]

def samplePhone : Record :=
  [("id", vnum 2), ("name", vstr "Phone"),
   ("price", vnum 199.99), ("category", vstr "electronics")]

def sampleCable : Record :=
  [("id", vnum 3), ("name", vstr "Cable"),
   ("price", vnum 29.99), ("category", vstr "accessories")]

def sampleProducts : List Record := [sampleLaptop, samplePhone, sampleCable]

/-! ## Claims -/

/-- C1 (counterexample): the claim that a payload `id` is
ignored/overwritten by the server-generated id is false.  On an empty
collection the generated id is `1`, but the payload is spread *after*
the `id` field of the object literal, so a payload carrying `id: 5`
yields a record with id `5`, not `1`. -/
theorem c1_counterexample :
    (createProduct [] [("id", vnum 5), ("name", vstr "A")]).1
        = [("id", vnum 5), ("name", vstr "A")] ∧
    getField (createProduct [] [("id", vnum 5), ("name", vstr "A")]).1 "id"
        ≠ some (vnum 1) := by
  decide

/-- C1 (amended): for a Products create call whose payload carries no
`id` field, the id of the new record (returned and appended to the
persisted sequence) is server-generated: `1` on an empty collection,
and `1 + max(existing ids)` on a non-empty collection whose ids all
coerce to numbers (the maximum being an existing id that bounds every
id).  A payload `id` field, when present, overrides the generated id
because the payload is spread after it. -/
theorem createProduct_server_generated_id (ps : List Record) (body : Record)
    (hbody : "id" ∉ keys body)
    (hids : ∀ p ∈ ps, ∃ q, jsToNumber (fieldValue p "id") = some q) :
    (ps = [] → getField (createProduct ps body).1 "id" = some (vnum 1)) ∧
    (ps ≠ [] → ∃ m, mathMaxIds ps = some m ∧
      getField (createProduct ps body).1 "id" = some (vnum m.addOne) ∧
      (∃ p ∈ ps, jsToNumber (fieldValue p "id") = some m) ∧
      ∀ p ∈ ps, ∀ q, jsToNumber (fieldValue p "id") = some q →
        DecNum.numLe q m = true) ∧
    (createProduct ps body).2 = ps ++ [(createProduct ps body).1] := by
  refine ⟨?_, ?_, rfl⟩
  · rintro rfl
    show getField (spread [("id", vnum 1)] body) "id" = some (vnum 1)
    rw [getField_spread_of_not_mem _ hbody, getField_cons, if_pos rfl]
  · intro hne
    obtain ⟨m, hm, hmem, hall⟩ := mathMaxIds_spec ps hne hids
    refine ⟨m, hm, ?_, hmem, hall⟩
    have hlen : 0 < ps.length := List.length_pos.mpr hne
    have hfst : (createProduct ps body).1 = spread [("id", vnum m.addOne)] body := by
      simp [createProduct, hlen, hm]
    rw [hfst, getField_spread_of_not_mem _ hbody, getField_cons, if_pos rfl]

/-- Witness for C1 (amended) on the one-record collection
`[{id: 1}]` and the payload `{name: "A"}`. -/
theorem createProduct_server_generated_id_witness :
    ∃ m, mathMaxIds [[("id", vnum 1)]] = some m ∧
      getField (createProduct [[("id", vnum 1)]] [("name", vstr "A")]).1 "id"
        = some (vnum m.addOne) ∧
      (∃ p ∈ [[("id", vnum 1)]], jsToNumber (fieldValue p "id") = some m) ∧
      ∀ p ∈ ([[("id", vnum 1)]] : List Record), ∀ q,
        jsToNumber (fieldValue p "id") = some q → DecNum.numLe q m = true :=
  (createProduct_server_generated_id [[("id", vnum 1)]] [("name", vstr "A")]
    (by decide)
    (by
      intro p hp
      have hp' : p = [("id", vnum 1)] := by simpa using hp
      exact ⟨1, by rw [hp']; rfl⟩)).2.1 (by decide)

/-- C2: for every Users create payload (with distinct field names, as
`JSON.parse` produces), the record returned and appended has id equal
to `payload.id` when the payload contains an `id` field, and the
freshly generated id otherwise; every other payload field is carried
into the new record unchanged, and the new collection is the old one
with the new record appended. -/
theorem createUser_id_and_merge (users : List Record) (body : Record)
    (genId : String) (hnodup : (keys body).Nodup) :
    (∀ v, getField body "id" = some v →
      getField (createUser users body genId).1 "id" = some v) ∧
    (getField body "id" = none →
      getField (createUser users body genId).1 "id" = some (vstr genId)) ∧
    (∀ k, k ≠ "id" → getField (createUser users body genId).1 k = getField body k) ∧
    (createUser users body genId).2 = users ++ [(createUser users body genId).1] := by
  have hfst : (createUser users body genId).1 =
      spread [("id", if truthy (fieldValue body "id") then fieldValue body "id"
                     else vstr genId)] body := rfl
  refine ⟨?_, ?_, ?_, rfl⟩
  · intro v hv
    rw [hfst, getField_spread _ hnodup, hv]
    rfl
  · intro hv
    rw [hfst, getField_spread _ hnodup, hv]
    have hvu : fieldValue body "id" = vundef := by rw [fieldValue, hv]; rfl
    rw [hvu]
    rfl
  · intro k hk
    rw [hfst, getField_spread _ hnodup, getField_cons,
      if_neg (fun hh => hk hh.symm), getField_nil, Option.or_none]

/-- Witness for C2 on the payload `{id: "u7", name: "A"}` with
generated id `"gen"`. -/
theorem createUser_id_and_merge_witness :
    getField (createUser [] [("id", vstr "u7"), ("name", vstr "A")] "gen").1 "id"
      = some (vstr "u7") :=
  (createUser_id_and_merge [] [("id", vstr "u7"), ("name", vstr "A")] "gen"
    (by decide)).1 (vstr "u7") (by decide)

/-- C3: getById, update and delete on an id absent from the collection
(no record matches it) fail with the resource-specific NotFound
failure, whose status is 404; the mutating operations return the error
without a persisted sequence, i.e. `saveJsonData` is never reached and
storage is unchanged. -/
theorem notFound_absent_id (users products : List Record)
    (pidU pidP : String) (bodyU bodyP : Record)
    (hu : ∀ u ∈ users, userMatches pidU u = false)
    (hp : ∀ p ∈ products, productMatches (parseIntValue pidP) p = false) :
    getUserById users pidU = .error notFoundUser ∧
    updateUser users pidU bodyU = .error notFoundUser ∧
    deleteUser users pidU = .error notFoundUser ∧
    getProductById products pidP = .error notFoundProduct ∧
    updateProduct products pidP bodyP = .error notFoundProduct ∧
    deleteProduct products pidP = .error notFoundProduct ∧
    notFoundUser = ⟨"User not found", some 404⟩ ∧
    notFoundProduct = ⟨"Product not found", some 404⟩ := by
  have hufind : List.find? (userMatches pidU) users = none :=
    List.find?_eq_none.mpr fun u hu' => by simp [hu u hu']
  have hufind' : List.findIdx? (userMatches pidU) users = none :=
    List.findIdx?_eq_none_iff.mpr hu
  have hpfind : List.find? (productMatches (parseIntValue pidP)) products = none :=
    List.find?_eq_none.mpr fun p hp' => by simp [hp p hp']
  have hpfind' : List.findIdx? (productMatches (parseIntValue pidP)) products = none :=
    List.findIdx?_eq_none_iff.mpr hp
  refine ⟨?_, ?_, ?_, ?_, ?_, ?_, rfl, rfl⟩
  · simp [getUserById, hufind]
  · simp [updateUser, hufind']
  · simp [deleteUser, hufind']
  · simp [getProductById, hpfind]
  · simp [updateProduct, hpfind']
  · simp [deleteProduct, hpfind']

/-- `parseInt` never yields `undefined`, so a record with no id field
never matches a product path id. -/
theorem jsStrictEq_vundef_iff (w : Value) :
    jsStrictEq vundef w = true ↔ w = vundef := by
  cases w <;> simp [jsStrictEq]

/-- A product record that matches a parsed path id has an `id` field. -/
theorem productMatches_field_present {p : Record} {s : String}
    (h : productMatches (parseIntValue s) p = true) :
    getField p "id" = some (fieldValue p "id") := by
  cases hg : getField p "id" with
  | some v => rw [fieldValue, hg]; rfl
  | none =>
      exfalso
      rw [productMatches] at h
      rw [fieldValue, hg] at h
      have := (jsStrictEq_vundef_iff (parseIntValue s)).mp h
      rw [parseIntValue] at this
      cases hj : jsParseInt s <;> rw [hj] at this <;> simp at this

/-- C4: update on an id present in the collection returns a record
that still matches the same request id (for Users the id is literally
the path string), merges the existing record's fields with the
payload's fields (payload wins), and persists that record at the
matched position; the id field is forced back to the original. -/
theorem update_preserves_id :
    (∀ (users : List Record) (pid : String) (body : Record) (i : Nat),
      List.findIdx? (userMatches pid) users = some i →
      (keys body).Nodup →
      ∃ r, updateUser users pid body = .ok (r, users.set i r) ∧
        userMatches pid r = true ∧
        getField r "id" = some (vstr pid) ∧
        (∀ k, k ≠ "id" →
          getField r k = (getField body k).or (getField (users.getD i []) k)) ∧
        (users.set i r).getD i [] = r) ∧
    (∀ (products : List Record) (pid : String) (body : Record) (i : Nat),
      List.findIdx? (productMatches (parseIntValue pid)) products = some i →
      (keys body).Nodup →
      ∃ r, updateProduct products pid body = .ok (r, products.set i r) ∧
        productMatches (parseIntValue pid) r = true ∧
        getField r "id" = getField (products.getD i []) "id" ∧
        (∀ k, k ≠ "id" →
          getField r k = (getField body k).or (getField (products.getD i []) k)) ∧
        (products.set i r).getD i [] = r) := by
  constructor
  · intro users pid body i hfind hnodup
    obtain ⟨hi, hmatch, -⟩ := findIdx?_some_facts hfind
    have hold : users.getD i [] = users.get ⟨i, hi⟩ := List.getD_eq_getElem users [] hi
    have hidval : fieldValue (users.getD i []) "id" = vstr pid := by
      rw [hold]
      rw [userMatches] at hmatch
      exact (jsStrictEq_vstr_iff _ _).mp hmatch
    refine ⟨setField (spread (users.getD i []) body) "id"
        (fieldValue (users.getD i []) "id"), ?_, ?_, ?_, ?_, ?_⟩
    · simp only [updateUser, hfind]
    · rw [userMatches, fieldValue, getField_setField, if_pos rfl]
      rw [hidval]
      simp [jsStrictEq]
    · rw [getField_setField, if_pos rfl, hidval]
    · intro k hk
      rw [getField_setField, if_neg hk, getField_spread _ hnodup]
    · rw [List.getD_eq_getElem _ [] (by rw [List.length_set]; exact hi),
        List.getElem_set_self]
  · intro products pid body i hfind hnodup
    obtain ⟨hi, hmatch, -⟩ := findIdx?_some_facts hfind
    have hold : products.getD i [] = products.get ⟨i, hi⟩ :=
      List.getD_eq_getElem products [] hi
    have hpresent : getField (products.getD i []) "id"
        = some (fieldValue (products.getD i []) "id") := by
      rw [hold]
      exact productMatches_field_present hmatch
    refine ⟨setField (spread (products.getD i []) body) "id"
        (fieldValue (products.getD i []) "id"), ?_, ?_, ?_, ?_, ?_⟩
    · simp only [updateProduct, hfind]
    · rw [productMatches, fieldValue, getField_setField, if_pos rfl]
      rw [hold] at *
      rw [productMatches] at hmatch
      exact hmatch
    · rw [getField_setField, if_pos rfl, hpresent]
    · intro k hk
      rw [getField_setField, if_neg hk, getField_spread _ hnodup]
    · rw [List.getD_eq_getElem _ [] (by rw [List.length_set]; exact hi),
        List.getElem_set_self]

/-- Witness for C4: a one-user collection, updated with a payload that
tries to change the id. -/
theorem update_preserves_id_witness :
    ∃ r, updateUser [[("id", vstr "1"), ("name", vstr "Old")]] "1"
        [("name", vstr "New"), ("id", vstr "other")]
      = .ok (r, [[("id", vstr "1"), ("name", vstr "Old")]].set 0 r) ∧
      userMatches "1" r = true ∧
      getField r "id" = some (vstr "1") ∧
      (∀ k, k ≠ "id" →
        getField r k = (getField [("name", vstr "New"), ("id", vstr "other")] k).or
          (getField ([[("id", vstr "1"), ("name", vstr "Old")]].getD 0 []) k)) ∧
      ([[("id", vstr "1"), ("name", vstr "Old")]].set 0 r).getD 0 [] = r :=
  update_preserves_id.1 [[("id", vstr "1"), ("name", vstr "Old")]] "1"
    [("name", vstr "New"), ("id", vstr "other")] 0 (by decide) (by decide)

/-- Two user records sharing the same id. -/
def dupUserA : Record := [("id", vstr "1"), ("n", vnum 1)]

/-- A later duplicate with the same id as `dupUserA`. -/
def dupUserB : Record := [("id", vstr "1"), ("n", vnum 2)]

/-- C5 (counterexample): with duplicate ids the claim fails.  Deleting
id "1" from `[dupUserA, dupUserB]` removes only the first record and
persists `[dupUserB]`; a subsequent getById("1") against the persisted
result succeeds instead of failing with NotFound. -/
theorem c5_counterexample :
    deleteUser [dupUserA, dupUserB] "1" = .ok (dupUserA, [dupUserB]) ∧
    getUserById [dupUserB] "1" = .ok dupUserB := by
  decide

/-- C5 (amended): delete on an id present in the collection —
duplicates included — persists a sequence exactly one record shorter
with the relative order of the remaining records preserved, and
returns the removed record's pre-deletion value; additionally,
provided no *other* record of the collection matches that id, a
subsequent getById against the persisted result fails with
NotFound. -/
theorem delete_shrinks_by_one :
    (∀ (users : List Record) (pid : String) (i : Nat),
      List.findIdx? (userMatches pid) users = some i →
      deleteUser users pid = .ok (users.getD i [], users.eraseIdx i) ∧
      userMatches pid (users.getD i []) = true ∧
      users.eraseIdx i = users.take i ++ users.drop (i + 1) ∧
      (users.eraseIdx i).length + 1 = users.length ∧
      ((∀ j, (hj : j < users.length) → j ≠ i →
          userMatches pid (users.get ⟨j, hj⟩) = false) →
        getUserById (users.eraseIdx i) pid = .error notFoundUser)) ∧
    (∀ (products : List Record) (pid : String) (i : Nat),
      List.findIdx? (productMatches (parseIntValue pid)) products = some i →
      deleteProduct products pid = .ok (products.getD i [], products.eraseIdx i) ∧
      productMatches (parseIntValue pid) (products.getD i []) = true ∧
      products.eraseIdx i = products.take i ++ products.drop (i + 1) ∧
      (products.eraseIdx i).length + 1 = products.length ∧
      ((∀ j, (hj : j < products.length) → j ≠ i →
          productMatches (parseIntValue pid) (products.get ⟨j, hj⟩) = false) →
        getProductById (products.eraseIdx i) pid = .error notFoundProduct)) := by
  constructor
  · intro users pid i hfind
    obtain ⟨hi, hmatch, -⟩ := findIdx?_some_facts hfind
    refine ⟨?_, ?_, ?_, ?_, ?_⟩
    · simp only [deleteUser, hfind]
    · rw [List.getD_eq_getElem _ [] hi]
      exact hmatch
    · exact List.eraseIdx_eq_take_drop_succ users i
    · rw [List.length_eraseIdx, if_pos hi]
      omega
    · intro huniq
      simp [getUserById, find?_eraseIdx_eq_none hi huniq]
  · intro products pid i hfind
    obtain ⟨hi, hmatch, -⟩ := findIdx?_some_facts hfind
    refine ⟨?_, ?_, ?_, ?_, ?_⟩
    · simp only [deleteProduct, hfind]
    · rw [List.getD_eq_getElem _ [] hi]
      exact hmatch
    · exact List.eraseIdx_eq_take_drop_succ products i
    · rw [List.length_eraseIdx, if_pos hi]
      omega
    · intro huniq
      simp [getProductById, find?_eraseIdx_eq_none hi huniq]

/-- Witness for C5 (amended) on a one-user collection, exercising the
unconditional clauses and the uniqueness-guarded getById clause. -/
theorem delete_shrinks_by_one_witness :
    deleteUser [[("id", vstr "1")]] "1"
      = .ok ([[("id", vstr "1")]].getD 0 [], [[("id", vstr "1")]].eraseIdx 0) ∧
    userMatches "1" ([[("id", vstr "1")]].getD 0 []) = true ∧
    ([[("id", vstr "1")]] : List Record).eraseIdx 0
      = [[("id", vstr "1")]].take 0 ++ [[("id", vstr "1")]].drop 1 ∧
    (([[("id", vstr "1")]] : List Record).eraseIdx 0).length + 1
      = ([[("id", vstr "1")]] : List Record).length ∧
    getUserById ([[("id", vstr "1")]].eraseIdx 0) "1" = .error notFoundUser :=
  have h := delete_shrinks_by_one.1 [[("id", vstr "1")]] "1" 0 (by decide)
  ⟨h.1, h.2.1, h.2.2.1, h.2.2.2.1,
    h.2.2.2.2 (by
      intro j hj hne
      simp only [List.length_cons, List.length_nil] at hj
      omega)⟩

/-- C10: when several records share an id, update rewrites and delete
removes only the first (lowest-index) matching record; every other
position of the persisted sequence is unchanged, and delete keeps the
remaining records in their relative order (take/drop around the
removed index). -/
theorem first_match_frame :
    (∀ (users : List Record) (pid : String) (body : Record) (i : Nat),
      List.findIdx? (userMatches pid) users = some i →
      ∃ hi : i < users.length,
        userMatches pid (users.get ⟨i, hi⟩) = true ∧
        (∀ j, (hj : j < users.length) → j < i →
          userMatches pid (users.get ⟨j, hj⟩) = false) ∧
        (∃ r, updateUser users pid body = .ok (r, users.set i r) ∧
          ∀ j, j ≠ i → (users.set i r).getD j [] = users.getD j []) ∧
        deleteUser users pid
          = .ok (users.getD i [], users.take i ++ users.drop (i + 1))) ∧
    (∀ (products : List Record) (pid : String) (body : Record) (i : Nat),
      List.findIdx? (productMatches (parseIntValue pid)) products = some i →
      ∃ hi : i < products.length,
        productMatches (parseIntValue pid) (products.get ⟨i, hi⟩) = true ∧
        (∀ j, (hj : j < products.length) → j < i →
          productMatches (parseIntValue pid) (products.get ⟨j, hj⟩) = false) ∧
        (∃ r, updateProduct products pid body = .ok (r, products.set i r) ∧
          ∀ j, j ≠ i → (products.set i r).getD j [] = products.getD j []) ∧
        deleteProduct products pid
          = .ok (products.getD i [], products.take i ++ products.drop (i + 1))) := by
  constructor
  · intro users pid body i hfind
    obtain ⟨hi, hmatch, hfirst⟩ := findIdx?_some_facts hfind
    refine ⟨hi, hmatch, hfirst,
      ⟨setField (spread (users.getD i []) body) "id"
          (fieldValue (users.getD i []) "id"),
        by simp only [updateUser, hfind], ?_⟩, ?_⟩
    · intro j hne
      by_cases hjl : j < users.length
      · rw [List.getD_eq_getElem _ [] (by rw [List.length_set]; exact hjl),
          List.getD_eq_getElem _ [] hjl]
        exact List.getElem_set_ne (fun h => hne h.symm) _
      · rw [List.getD_eq_default _ _ (by rw [List.length_set]; omega),
          List.getD_eq_default _ _ (by omega)]
    · simp only [deleteUser, hfind]
      rw [List.eraseIdx_eq_take_drop_succ]
  · intro products pid body i hfind
    obtain ⟨hi, hmatch, hfirst⟩ := findIdx?_some_facts hfind
    refine ⟨hi, hmatch, hfirst,
      ⟨setField (spread (products.getD i []) body) "id"
          (fieldValue (products.getD i []) "id"),
        by simp only [updateProduct, hfind], ?_⟩, ?_⟩
    · intro j hne
      by_cases hjl : j < products.length
      · rw [List.getD_eq_getElem _ [] (by rw [List.length_set]; exact hjl),
          List.getD_eq_getElem _ [] hjl]
        exact List.getElem_set_ne (fun h => hne h.symm) _
      · rw [List.getD_eq_default _ _ (by rw [List.length_set]; omega),
          List.getD_eq_default _ _ (by omega)]
    · simp only [deleteProduct, hfind]
      rw [List.eraseIdx_eq_take_drop_succ]

/-- Witness for C10 on a collection with a duplicated id. -/
theorem first_match_frame_witness :
    ∃ hi : 0 < ([dupUserA, dupUserB] : List Record).length,
      userMatches "1" (([dupUserA, dupUserB] : List Record).get ⟨0, hi⟩) = true ∧
      (∀ j, (hj : j < ([dupUserA, dupUserB] : List Record).length) → j < 0 →
        userMatches "1" (([dupUserA, dupUserB] : List Record).get ⟨j, hj⟩) = false) ∧
      (∃ r, updateUser [dupUserA, dupUserB] "1" [("x", vnum 9)]
          = .ok (r, ([dupUserA, dupUserB] : List Record).set 0 r) ∧
        ∀ j, j ≠ 0 → (([dupUserA, dupUserB] : List Record).set 0 r).getD j []
          = ([dupUserA, dupUserB] : List Record).getD j []) ∧
      deleteUser [dupUserA, dupUserB] "1"
        = .ok (([dupUserA, dupUserB] : List Record).getD 0 [],
            ([dupUserA, dupUserB] : List Record).take 0
              ++ ([dupUserA, dupUserB] : List Record).drop 1) :=
  first_match_frame.1 [dupUserA, dupUserB] "1" [("x", vnum 9)] 0 (by decide)

/-- Witness for C3: id `"2"` is absent from a one-user collection, and
`"abc"` (which parses to `NaN`) matches nothing in a one-product
collection. -/
theorem notFound_absent_id_witness :
    getUserById [[("id", vstr "1")]] "2" = .error notFoundUser ∧
    updateUser [[("id", vstr "1")]] "2" [] = .error notFoundUser ∧
    deleteUser [[("id", vstr "1")]] "2" = .error notFoundUser ∧
    getProductById [[("id", vnum 1)]] "abc" = .error notFoundProduct ∧
    updateProduct [[("id", vnum 1)]] "abc" [] = .error notFoundProduct ∧
    deleteProduct [[("id", vnum 1)]] "abc" = .error notFoundProduct ∧
    notFoundUser = ⟨"User not found", some 404⟩ ∧
    notFoundProduct = ⟨"Product not found", some 404⟩ :=
  notFound_absent_id [[("id", vstr "1")]] [[("id", vnum 1)]] "2" "abc" [] []
    (by decide) (by decide)

theorem mem_applyCategoryFilter (c? : Option String) (ps : List Record)
    (r : Record) :
    r ∈ applyCategoryFilter c? ps ↔ r ∈ ps ∧
      (match c? with
       | some c => c = "" ∨ jsStrictEq (fieldValue r "category") (vstr c) = true
       | none => True) := by
  cases c? with
  | none => simp [applyCategoryFilter]
  | some c =>
      by_cases hc : c = ""
      · simp [applyCategoryFilter, hc]
      · simp [applyCategoryFilter, hc, List.mem_filter]

theorem mem_applyMinPriceFilter (m? : Option String) (ps : List Record)
    (r : Record) :
    r ∈ applyMinPriceFilter m? ps ↔ r ∈ ps ∧
      (match m? with
       | some m => m = "" ∨ jsGeNum (fieldValue r "price") (jsParseFloat m) = true
       | none => True) := by
  cases m? with
  | none => simp [applyMinPriceFilter]
  | some m =>
      by_cases hm : m = ""
      · simp [applyMinPriceFilter, hm]
      · simp [applyMinPriceFilter, hm, List.mem_filter]

theorem mem_applyMaxPriceFilter (m? : Option String) (ps : List Record)
    (r : Record) :
    r ∈ applyMaxPriceFilter m? ps ↔ r ∈ ps ∧
      (match m? with
       | some m => m = "" ∨ jsLeNum (fieldValue r "price") (jsParseFloat m) = true
       | none => True) := by
  cases m? with
  | none => simp [applyMaxPriceFilter]
  | some m =>
      by_cases hm : m = ""
      · simp [applyMaxPriceFilter, hm]
      · simp [applyMaxPriceFilter, hm, List.mem_filter]

/-- C6: the category, minPrice and maxPrice filters of Products
listAll compose conjunctively: a record is in the result iff it is in
the collection and satisfies every supplied (truthy) filter, each one
independently omittable.  On the sample records with prices
`[99.99, 199.99, 29.99]` and categories
`[electronics, electronics, accessories]`, the query
`category=electronics&minPrice=150` returns exactly the `199.99`
record. -/
theorem getAllProducts_conjunction :
    (∀ (ps : List Record) (q : ProductQuery) (r : Record),
      r ∈ getAllProducts ps q ↔ r ∈ ps ∧
        (match q.category with
         | some c => c = "" ∨ jsStrictEq (fieldValue r "category") (vstr c) = true
         | none => True) ∧
        (match q.minPrice with
         | some m => m = "" ∨ jsGeNum (fieldValue r "price") (jsParseFloat m) = true
         | none => True) ∧
        (match q.maxPrice with
         | some m => m = "" ∨ jsLeNum (fieldValue r "price") (jsParseFloat m) = true
         | none => True)) ∧
    getAllProducts sampleProducts ⟨some "electronics", some "150", none⟩
      = [samplePhone] := by
  constructor
  · intro ps q r
    rw [getAllProducts, mem_applyMaxPriceFilter, mem_applyMinPriceFilter,
      mem_applyCategoryFilter]
    tauto
  · decide

/-- Witness for C6: the sample `199.99` record is in the filtered
result. -/
theorem getAllProducts_conjunction_witness :
    samplePhone ∈ getAllProducts sampleProducts
      ⟨some "electronics", some "150", none⟩ :=
  (getAllProducts_conjunction.1 sampleProducts
    ⟨some "electronics", some "150", none⟩ samplePhone).mpr (by decide)

/-- C7 (counterexample): a failure carrying `statusCode = 0` is not
rendered with its own status: the handler computes
`err.statusCode || 500`, and `0` is falsy, so the envelope carries 500
instead of the status of the failure. -/
theorem c7_counterexample :
    (⟨"boom", some 0, "trace"⟩ : ErrorInput).statusCode = some 0 ∧
    (errorHandler ⟨"boom", some 0, "trace"⟩ false).statusCode = 500 := by
  decide

/-- C7 (amended): every failure reaching the boundary handler is
rendered as the envelope `{status:"error", statusCode:N, message:...}`
where N is the status carried by the failure when that status is
nonzero, and 500 when the failure carries no status or carries status
0 (the handler tests truthiness); the stack field is present exactly
in a development-mode configuration. -/
theorem errorHandler_envelope (err : ErrorInput) (isDev : Bool) :
    (errorHandler err isDev).status = "error" ∧
    (∀ n, err.statusCode = some n → n ≠ 0 →
      (errorHandler err isDev).statusCode = n) ∧
    ((err.statusCode = none ∨ err.statusCode = some 0) →
      (errorHandler err isDev).statusCode = 500) ∧
    (err.message ≠ "" → (errorHandler err isDev).message = err.message) ∧
    (errorHandler err isDev).stack = (if isDev then some err.stack else none) := by
  refine ⟨rfl, ?_, ?_, ?_, rfl⟩
  · intro n hn hne
    simp [errorHandler, hn, hne]
  · rintro (h | h) <;> simp [errorHandler, h]
  · intro h
    simp [errorHandler, h]

/-- Witness for C7 (amended): a NotFound failure renders with 404. -/
theorem errorHandler_envelope_witness :
    (errorHandler ⟨"User not found", some 404, "trace"⟩ true).statusCode = 404 :=
  (errorHandler_envelope ⟨"User not found", some 404, "trace"⟩ true).2.1 404 rfl
    (by decide)

/-- A `NaN` path id matches no record. -/
theorem productMatches_vnan (p : Record) : productMatches vnan p = false := by
  rw [productMatches]
  cases fieldValue p "id" <;> rfl

/-- C8: the Products getById/update/delete operations act on the
integer obtained by prefix-parsing the path string with `parseInt`
(ECMAScript semantics: `StrWhiteSpace` skipped, optional sign, `0x`
hexadecimal prefix honoured, longest digit prefix in the selected
radix): the operations depend on the path string only through its
parse, a string that parses to `NaN` matches no record and the
operations fail with NotFound (no save on the mutating ones);
`"2abc"` parses to `2` and finds the record with id 2 in the sample
collection. -/
theorem product_ops_use_parseInt :
    (∀ (ps : List Record) (body : Record) (s : String), jsParseInt s = none →
      getProductById ps s = .error notFoundProduct ∧
      updateProduct ps s body = .error notFoundProduct ∧
      deleteProduct ps s = .error notFoundProduct) ∧
    (∀ (ps : List Record) (body : Record) (s t : String),
      jsParseInt s = jsParseInt t →
      getProductById ps s = getProductById ps t ∧
      updateProduct ps s body = updateProduct ps t body ∧
      deleteProduct ps s = deleteProduct ps t) ∧
    jsParseInt "2abc" = some 2 ∧
    jsParseInt "abc" = none ∧
    getProductById sampleProducts "2abc" = .ok samplePhone := by
  refine ⟨?_, ?_, by decide, by decide, by decide⟩
  · intro ps body s hparse
    have hval : parseIntValue s = vnan := by rw [parseIntValue, hparse]
    have hfind : List.find? (productMatches (parseIntValue s)) ps = none :=
      List.find?_eq_none.mpr fun p _ => by
        rw [hval]
        simp [productMatches_vnan p]
    have hfind' : List.findIdx? (productMatches (parseIntValue s)) ps = none :=
      List.findIdx?_eq_none_iff.mpr fun p _ => by rw [hval]; exact productMatches_vnan p
    refine ⟨?_, ?_, ?_⟩
    · simp [getProductById, hfind]
    · simp [updateProduct, hfind']
    · simp [deleteProduct, hfind']
  · intro ps body s t hparse
    have hval : parseIntValue s = parseIntValue t := by
      rw [parseIntValue, parseIntValue, hparse]
    refine ⟨?_, ?_, ?_⟩
    · simp only [getProductById, hval]
    · simp only [updateProduct, hval]
    · simp only [deleteProduct, hval]

/-- Witness for C8: `"abc"` yields NotFound on the sample collection,
and `"2abc"` behaves exactly like `"2"`. -/
theorem product_ops_use_parseInt_witness :
    getProductById sampleProducts "abc" = .error notFoundProduct ∧
    getProductById sampleProducts "2abc" = getProductById sampleProducts "2" :=
  ⟨(product_ops_use_parseInt.1 sampleProducts [] "abc" (by decide)).1,
   (product_ops_use_parseInt.2.1 sampleProducts [] "2abc" "2" (by decide)).1⟩

/-- C9: in Products listAll a query parameter bound to the empty
string is treated exactly as an absent parameter — the truthiness
guard skips the corresponding filter. -/
theorem getAllProducts_empty_param (ps : List Record)
    (cq mq xq : Option String) :
    getAllProducts ps ⟨some "", mq, xq⟩ = getAllProducts ps ⟨none, mq, xq⟩ ∧
    getAllProducts ps ⟨cq, some "", xq⟩ = getAllProducts ps ⟨cq, none, xq⟩ ∧
    getAllProducts ps ⟨cq, mq, some ""⟩ = getAllProducts ps ⟨cq, mq, none⟩ :=
  ⟨rfl, rfl, rfl⟩

end ApiServer
